import Mathlib

/-!
Verification of the Agama D-Bus client abstraction: the variant codec,
the domain clients (software and storage), the cancellable async wrapper,
the change notifier, and two UI-level pure functions (the `ValidationErrors`
render logic and the `OverviewSection` reducer), embedded shallowly in Lean.
-/

set_option maxHeartbeats 1000000

namespace Agama

/-! ## Variant codec

Modelled from the spec: the Variant Codec implementation is not included
under `src/` (only the storage client test exercises it through the
`{ t: "v", v: { t: "s", v: ... } }` wire fixtures).  A tagged value carries a
type tag — one of string, boolean, integer, array, struct/tuple,
variant-wrapper — or an unrecognized tag; containers hold further tagged
values. -/

/-- Modelled from the spec: a Tagged Value on the wire — a type tag plus a
payload, recursively nested for containers and structs; `unknown` stands for
any value whose type tag is outside the supported tag set. -/
inductive DBusValue where
  | str (s : String)
  | bool (b : Bool)
  | int (n : Int)
  | arr (elems : List DBusValue)
  | struct (fields : List DBusValue)
  | variant (inner : DBusValue)
  | unknown (tag : String)

/-- Modelled from the spec: a plain language-native value produced by the
codec. -/
inductive PlainValue where
  | str (s : String)
  | bool (b : Bool)
  | int (n : Int)
  | arr (elems : List PlainValue)
  | tuple (fields : List PlainValue)

/-- Modelled from the spec: `DecodeError` — an unrecognized tag or a malformed
structure. -/
inductive DecodeError where
  | unknownTag (tag : String)
  | malformed (what : String)
deriving Repr, DecidableEq

mutual

/-- Modelled from the spec: `decode(taggedValue) -> plainValue`, total over
the declared tag set, recursive for arrays/structs, fails with
`DecodeError{unknownTag}` otherwise; a variant tag is transparently
unwrapped. -/
def decode : DBusValue → Except DecodeError PlainValue
  | .str s => .ok (.str s)
  | .bool b => .ok (.bool b)
  | .int n => .ok (.int n)
  | .arr elems =>
    match decodeList elems with
    | .ok xs => .ok (.arr xs)
    | .error e => .error e
  | .struct fields =>
    match decodeList fields with
    | .ok xs => .ok (.tuple xs)
    | .error e => .error e
  | .variant inner => decode inner
  | .unknown tag => .error (.unknownTag tag)

/-- Modelled from the spec: element-wise decoding of a container payload,
preserving order, failing on the first element that fails. -/
def decodeList : List DBusValue → Except DecodeError (List PlainValue)
  | [] => .ok []
  | v :: rest =>
    match decode v, decodeList rest with
    | .ok x, .ok xs => .ok (x :: xs)
    | .error e, _ => .error e
    | .ok _, .error e => .error e

end

mutual

/-- A tagged value built only from supported tags (no `unknown` anywhere). -/
def supported : DBusValue → Bool
  | .str _ => true
  | .bool _ => true
  | .int _ => true
  | .arr elems => supportedList elems
  | .struct fields => supportedList fields
  | .variant inner => supported inner
  | .unknown _ => false

/-- Every element of the list is built only from supported tags. -/
def supportedList : List DBusValue → Bool
  | [] => true
  | v :: rest => supported v && supportedList rest

end

mutual

/-- Decoding succeeds on every tagged value built only from supported tags. -/
def decode_isOk_of_supported : ∀ v : DBusValue, supported v = true → (decode v).isOk = true
  | .str _, _ => rfl
  | .bool _, _ => rfl
  | .int _, _ => rfl
  | .arr elems, h => by
    have ih := decodeList_isOk_of_supported elems (by simpa [supported] using h)
    simp only [decode]
    cases hd : decodeList elems with
    | ok xs => rfl
    | error e => rw [hd] at ih; simp [Except.isOk, Except.toBool] at ih
  | .struct fields, h => by
    have ih := decodeList_isOk_of_supported fields (by simpa [supported] using h)
    simp only [decode]
    cases hd : decodeList fields with
    | ok xs => rfl
    | error e => rw [hd] at ih; simp [Except.isOk, Except.toBool] at ih
  | .variant inner, h =>
    decode_isOk_of_supported inner (by simpa [supported] using h)

/-- Element-wise decoding succeeds on a list of supported tagged values. -/
def decodeList_isOk_of_supported :
    ∀ elems : List DBusValue, supportedList elems = true → (decodeList elems).isOk = true
  | [], _ => rfl
  | v :: rest, h => by
    have hv : supported v = true := by
      have := h; simp [supportedList, Bool.and_eq_true] at this; exact this.1
    have hr : supportedList rest = true := by
      have := h; simp [supportedList, Bool.and_eq_true] at this; exact this.2
    have ihv := decode_isOk_of_supported v hv
    have ihr := decodeList_isOk_of_supported rest hr
    simp only [decodeList]
    cases hdv : decode v with
    | error e => rw [hdv] at ihv; simp [Except.isOk, Except.toBool] at ihv
    | ok x =>
      cases hdr : decodeList rest with
      | error e => rw [hdr] at ihr; simp [Except.isOk, Except.toBool] at ihr
      | ok xs => rfl

end

/-! ## Domain clients

Modelled from the spec: the `SoftwareClient` and `StorageClient`
implementations are not included under `src/` (only their tests are, in
`src/unnamed/part_000`).  Each client composes a proxy handle — modelled as a
record holding the interface's property bag plus a count of `wait()` calls —
and read operations that first wait on the handle and then decode the
properties into immutable domain snapshots. -/

/-- Modelled from the spec: the metadata map attached to a product tuple
(dropped by `getProducts`). -/
def Metadata := List (String × String)

/-- Modelled from the spec: the software catalog proxy handle —
`AvailableBaseProducts` (array of 3-tuples id, name, metadata-map) and
`SelectedBaseProduct` (string); `waitCalls` counts completed `wait()`
calls. -/
structure SoftProxy where
  waitCalls : Nat
  AvailableBaseProducts : List (String × String × Metadata)
  SelectedBaseProduct : String

/-- Modelled from the spec: `wait()` on the software proxy handle. -/
def SoftProxy.wait (p : SoftProxy) : SoftProxy :=
  { p with waitCalls := p.waitCalls + 1 }

/-- `Product{ id, name }` domain snapshot. -/
structure Product where
  id : String
  name : String
deriving Repr, DecidableEq

/-- Modelled from the spec: `getProducts()` waits on the software proxy
handle, then decodes `AvailableBaseProducts` into `Product{id, name}`,
dropping the metadata field. -/
def getProducts (p : SoftProxy) : SoftProxy × List Product :=
  let q := p.wait
  (q, q.AvailableBaseProducts.map (fun t => Product.mk t.1 t.2.1))

/-- Modelled from the spec: `getSelectedProduct()` waits on the software
proxy handle and decodes `SelectedBaseProduct` directly. -/
def getSelectedProduct (p : SoftProxy) : SoftProxy × String :=
  let q := p.wait
  (q, q.SelectedBaseProduct)

/-- Modelled from the spec: the storage proposal proxy handle —
`AvailableDevices` (array of `[id, label]` tuples), `CandidateDevices`
(array of strings), `LVM` (boolean). -/
structure ProposalProxy where
  waitCalls : Nat
  AvailableDevices : List (String × String)
  CandidateDevices : List String
  LVM : Bool

/-- Modelled from the spec: `wait()` on the storage proposal proxy handle. -/
def ProposalProxy.wait (p : ProposalProxy) : ProposalProxy :=
  { p with waitCalls := p.waitCalls + 1 }

/-- `Device{ id, label }` domain snapshot. -/
structure Device where
  id : String
  label : String
deriving Repr, DecidableEq

/-- `StorageProposal` domain snapshot. -/
structure StorageProposal where
  availableDevices : List Device
  candidateDevices : List String
  lvm : Bool
deriving Repr, DecidableEq

/-- Modelled from the spec: `getStorageProposal()` waits on the proposal
proxy handle, then decodes `AvailableDevices` into `Device` objects,
`CandidateDevices` as-is, `LVM` as boolean. -/
def getStorageProposal (p : ProposalProxy) : ProposalProxy × StorageProposal :=
  let q := p.wait
  (q, { availableDevices := q.AvailableDevices.map (fun d => Device.mk d.1 d.2),
        candidateDevices := q.CandidateDevices,
        lvm := q.LVM })

/-- Modelled from the spec: one element of the `All` property — a struct
whose `Text`, `Subvol` and `Delete` fields are variant-wrapped tagged
values. -/
structure ActionItem where
  Text : DBusValue
  Subvol : DBusValue
  Delete : DBusValue

/-- Modelled from the spec: the storage actions proxy handle — property
`All`. -/
structure ActionsProxy where
  waitCalls : Nat
  All : List ActionItem

/-- Modelled from the spec: `wait()` on the storage actions proxy handle. -/
def ActionsProxy.wait (p : ActionsProxy) : ActionsProxy :=
  { p with waitCalls := p.waitCalls + 1 }

/-- `StorageAction{ text, subvol, delete }` domain snapshot. -/
structure StorageAction where
  text : String
  subvol : Bool
  delete : Bool
deriving Repr, DecidableEq

/-- Modelled from the spec: each field of an `All` element is unwrapped
through the Codec before structuring into `StorageAction`; a field that is
not a variant-wrapped string/boolean of the right shape is a malformed
structure. -/
def decodeStorageAction (a : ActionItem) : Except DecodeError StorageAction :=
  match decode a.Text, decode a.Subvol, decode a.Delete with
  | .ok (.str t), .ok (.bool s), .ok (.bool d) => .ok (StorageAction.mk t s d)
  | .error e, _, _ => .error e
  | _, .error e, _ => .error e
  | _, _, .error e => .error e
  | _, _, _ => .error (.malformed "storage action fields")

/-- Element-wise decoding of the `All` property, preserving order. -/
def decodeStorageActions : List ActionItem → Except DecodeError (List StorageAction)
  | [] => .ok []
  | a :: rest =>
    match decodeStorageAction a, decodeStorageActions rest with
    | .ok x, .ok xs => .ok (x :: xs)
    | .error e, _ => .error e
    | .ok _, .error e => .error e

/-- Modelled from the spec: `getStorageActions()` waits on the storage
actions proxy handle, then decodes the `All` property into the list of
`StorageAction` snapshots. -/
def getStorageActions (p : ActionsProxy) : ActionsProxy × Except DecodeError (List StorageAction) :=
  let q := p.wait
  (q, decodeStorageActions q.All)

/-- Wrapping plain (text, subvol, delete) data into a variant-wrapped `All`
element, the shape the claim quantifies over. -/
def variantActionItem (it : String × Bool × Bool) : ActionItem :=
  ActionItem.mk (.variant (.str it.1)) (.variant (.bool it.2.1)) (.variant (.bool it.2.2))

lemma decodeStorageActions_variants (items : List (String × Bool × Bool)) :
    decodeStorageActions (items.map variantActionItem)
      = .ok (items.map (fun it => StorageAction.mk it.1 it.2.1 it.2.2)) := by
  induction items with
  | nil => rfl
  | cons a rest ih =>
    simp [decodeStorageActions, decodeStorageAction, variantActionItem, decode, ih]

/-- C1: for every `All` property whose elements are structs with
variant-wrapped fields `Text` (a variant wrapping a string) and `Subvol`,
`Delete` (variants wrapping booleans), `getStorageActions()` unwraps each
field through the variant codec and returns the `StorageAction` values
`{text, subvol, delete}` in element order; in particular, one struct with
`Text="Mount /dev/sdb1 as root"`, `Subvol=false`, `Delete=false` yields
exactly that single action. -/
theorem getStorageActions_unwraps_variant_fields
    (waitCalls : Nat) (items : List (String × Bool × Bool)) :
    (getStorageActions ⟨waitCalls, items.map variantActionItem⟩).2
      = .ok (items.map (fun it => StorageAction.mk it.1 it.2.1 it.2.2))
    ∧ (getStorageActions ⟨0, [variantActionItem ("Mount /dev/sdb1 as root", false, false)]⟩).2
      = .ok [StorageAction.mk "Mount /dev/sdb1 as root" false false] := by
  refine ⟨?_, rfl⟩
  simpa [getStorageActions, ActionsProxy.wait] using decodeStorageActions_variants items

/-- C2: for every `AvailableBaseProducts` property value (array of
`[id, name, metadata]` tuples), `getProducts()` waits on the software proxy
handle and returns the `Product{id, name}` objects in the same order,
dropping the metadata field; in particular
`[["MicroOS", "openSUSE MicroOS", {}]]` yields
`[{id: "MicroOS", name: "openSUSE MicroOS"}]`. -/
theorem getProducts_decodes_available_base_products (p : SoftProxy) :
    (getProducts p).2 = p.AvailableBaseProducts.map (fun t => Product.mk t.1 t.2.1)
    ∧ (getProducts p).1.waitCalls = p.waitCalls + 1
    ∧ (getProducts ⟨0, [("MicroOS", "openSUSE MicroOS", [])], "microos"⟩).2
      = [Product.mk "MicroOS" "openSUSE MicroOS"] :=
  ⟨rfl, rfl, rfl⟩

/-- C3: for every proposal-interface property state, `getStorageProposal()`
returns a `StorageProposal` whose `availableDevices` maps the
`AvailableDevices` `[id, label]` tuples in order to `Device` objects, whose
`candidateDevices` is the `CandidateDevices` string array unchanged, and
whose `lvm` is the `LVM` boolean unchanged. -/
theorem getStorageProposal_decodes_proposal (p : ProposalProxy) :
    (getStorageProposal p).2
      = { availableDevices := p.AvailableDevices.map (fun d => Device.mk d.1 d.2),
          candidateDevices := p.CandidateDevices,
          lvm := p.LVM }
    ∧ (getStorageProposal p).1.waitCalls = p.waitCalls + 1
    ∧ (getStorageProposal
        ⟨0, [("/dev/sda", "/dev/sda, 950 GiB, Windows"), ("/dev/sdb", "/dev/sdb, 500 GiB")],
         ["/dev/sda"], true⟩).2
      = { availableDevices := [Device.mk "/dev/sda" "/dev/sda, 950 GiB, Windows",
                               Device.mk "/dev/sdb" "/dev/sdb, 500 GiB"],
          candidateDevices := ["/dev/sda"],
          lvm := true } :=
  ⟨rfl, rfl, rfl⟩

/-- C4: for every string value of the `SelectedBaseProduct` property,
`getSelectedProduct()` returns that string unchanged; in particular
`"microos"` yields `"microos"`. -/
theorem getSelectedProduct_returns_property (p : SoftProxy) :
    (getSelectedProduct p).2 = p.SelectedBaseProduct
    ∧ (getSelectedProduct ⟨0, [("MicroOS", "openSUSE MicroOS", [])], "microos"⟩).2 = "microos" :=
  ⟨rfl, rfl⟩

/-- C5: decoding a tagged value whose type tag is outside the supported tag
set fails with a `DecodeError` carrying the unknown tag (never a default or
placeholder value), and decoding succeeds on every value built only from
supported tags. -/
theorem decode_unknown_tag_fails_and_supported_total :
    (∀ tag : String, decode (.unknown tag) = .error (.unknownTag tag))
    ∧ (∀ v : DBusValue, supported v = true → (decode v).isOk = true) :=
  ⟨fun _ => rfl, decode_isOk_of_supported⟩

/-- Witness for C5 at concrete inputs: the tag `"q"` is rejected with itself
as the reported unknown tag, and a concrete supported array decodes
successfully. -/
theorem decode_unknown_tag_witness :
    decode (.unknown "q") = .error (.unknownTag "q")
    ∧ (supported (.arr [.variant (.str "x"), .bool true]) = true
       ∧ (decode (DBusValue.arr [.variant (.str "x"), .bool true])).isOk = true) :=
  ⟨decode_unknown_tag_fails_and_supported_total.1 "q",
   rfl, decode_unknown_tag_fails_and_supported_total.2 _ rfl⟩

lemma decodeList_ok_pointwise (xs : List DBusValue) :
    ∀ ys : List PlainValue, decodeList xs = .ok ys →
      ys.length = xs.length ∧
      ∀ i : Nat, ∀ hx : i < xs.length, ∀ hy : i < ys.length,
        decode xs[i] = .ok ys[i] := by
  induction xs with
  | nil =>
    intro ys h
    simp only [decodeList] at h
    injection h with h
    subst h
    exact ⟨rfl, fun i hx _ => absurd hx (Nat.not_lt_zero i)⟩
  | cons v rest ih =>
    intro ys h
    simp only [decodeList] at h
    split at h
    · rename_i x xs' hv hr
      injection h with h
      subst h
      obtain ⟨hlen, hpt⟩ := ih xs' hr
      refine ⟨by simp [hlen], ?_⟩
      intro i hx hy
      cases i with
      | zero => simpa using hv
      | succ j =>
        have hx' : j < rest.length := by simpa using hx
        have hy' : j < xs'.length := by simpa using hy
        simpa using hpt j hx' hy'
    · exact absurd h (by simp)
    · exact absurd h (by simp)

/-- C6: `decode` is deterministic and side-effect free — equal inputs decode
to equal outputs — and on arrays the output preserves element order
element-wise: each output element at index `i` is the decoding of the input
element at index `i`. -/
theorem decode_deterministic_and_order_preserving
    (v w : DBusValue) (h : v = w) :
    decode v = decode w
    ∧ (∀ (xs : List DBusValue) (ys : List PlainValue),
        v = .arr xs → decode v = .ok (.arr ys) →
        ys.length = xs.length ∧
        ∀ i : Nat, ∀ hx : i < xs.length, ∀ hy : i < ys.length,
          decode xs[i] = .ok ys[i]) := by
  refine ⟨by rw [h], ?_⟩
  rintro xs ys rfl hd
  have hlist : decodeList xs = .ok ys := by
    simp only [decode] at hd
    cases hl : decodeList xs with
    | ok l =>
      rw [hl] at hd
      injection hd with hd
      injection hd with hd
      rw [hd]
    | error e => rw [hl] at hd; exact absurd hd (by simp)
  exact decodeList_ok_pointwise xs ys hlist

/-- Witness for C6 at a concrete input: a two-element array decodes with the
length preserved, by the determinism/order theorem applied at that array. -/
theorem decode_deterministic_witness :
    ([PlainValue.str "a", PlainValue.bool true] : List PlainValue).length
      = ([DBusValue.variant (.str "a"), DBusValue.bool true] : List DBusValue).length :=
  ((decode_deterministic_and_order_preserving
      (.arr [.variant (.str "a"), .bool true]) (.arr [.variant (.str "a"), .bool true]) rfl).2
    [.variant (.str "a"), .bool true] [.str "a", .bool true] rfl rfl).1

/-! ## Cancellable async wrapper

Modelled from the spec: the `useCancellablePromise` implementation is not
included under `src/` (only its caller `OverviewSection.jsx` is).  The spec's
Cancellable Operation has states `Pending → {Delivered, Dropped}`: `Dropped`
is reached if cancellation is requested before completion, and a dropped
operation never invokes its completion callback; if the operation completes
before cancellation, delivery proceeds normally.  We model a run as a trace
of events processed in order, collecting the outcomes actually delivered to
the wrapped callback. -/

/-- Modelled from the spec: the outcome of a wrapped operation — success or
failure. -/
inductive PromiseOutcome (α ε : Type) where
  | success (v : α)
  | failure (e : ε)
deriving Repr, DecidableEq

/-- Modelled from the spec: an event in the life of one cancellable
operation — the token is cancelled, or the operation settles with an
outcome. -/
inductive WrapEvent (α ε : Type) where
  | cancel
  | settle (o : PromiseOutcome α ε)
deriving Repr, DecidableEq

/-- Whether an event is a settle event. -/
def WrapEvent.isSettle {α ε : Type} : WrapEvent α ε → Bool
  | .settle _ => true
  | .cancel => false

/-- Modelled from the spec: process the event trace with the cancelled and
delivered flags, collecting the outcomes delivered to the callback — a
settle while cancelled (or after a previous delivery) delivers nothing. -/
def runWrapper {α ε : Type} : List (WrapEvent α ε) → Bool → Bool → List (PromiseOutcome α ε)
  | [], _, _ => []
  | .cancel :: rest, _, delivered => runWrapper rest true delivered
  | .settle o :: rest, cancelled, delivered =>
    if cancelled || delivered then runWrapper rest cancelled delivered
    else o :: runWrapper rest cancelled true

/-- The outcomes a fresh cancellable operation delivers over a trace. -/
def cancellableDeliveries {α ε : Type} (trace : List (WrapEvent α ε)) : List (PromiseOutcome α ε) :=
  runWrapper trace false false

lemma runWrapper_halted {α ε : Type} (t : List (WrapEvent α ε)) :
    ∀ c d : Bool, (c || d) = true → runWrapper t c d = [] := by
  induction t with
  | nil => intro c d _; rfl
  | cons e rest ih =>
    intro c d h
    cases e with
    | cancel =>
      simp only [runWrapper]
      exact ih true d (by simp)
    | settle o =>
      simp only [runWrapper]
      rw [if_pos h]
      exact ih c d h

/-- C7: if the token is cancelled before the operation settles, the wrapper
never invokes the wrapped callback — neither with a success nor with a
failure outcome; if the operation settles before any cancellation, the
outcome is delivered normally (and exactly once), whatever happens
afterwards. -/
theorem cancellable_wrapper_suppresses_after_cancel {α ε : Type}
    (pre post : List (WrapEvent α ε)) (o : PromiseOutcome α ε)
    (hns : pre.any WrapEvent.isSettle = false) :
    (WrapEvent.cancel ∈ pre →
      cancellableDeliveries (pre ++ WrapEvent.settle o :: post) = [])
    ∧ ((WrapEvent.cancel : WrapEvent α ε) ∉ pre →
      cancellableDeliveries (pre ++ WrapEvent.settle o :: post) = [o]) := by
  constructor
  · intro hc
    cases pre with
    | nil => cases hc
    | cons e pre' =>
      cases e with
      | settle o' => simp [WrapEvent.isSettle] at hns
      | cancel =>
        simp only [cancellableDeliveries, List.cons_append, runWrapper]
        exact runWrapper_halted _ true false rfl
  · intro hnc
    have hpre : pre = [] := by
      cases pre with
      | nil => rfl
      | cons e pre' =>
        cases e with
        | cancel => exact absurd (List.mem_cons_self _ _) hnc
        | settle o' => simp [WrapEvent.isSettle] at hns
    subst hpre
    simp only [List.nil_append, cancellableDeliveries, runWrapper]
    rw [if_neg (by simp)]
    rw [runWrapper_halted post false true rfl]

/-- Witness for C7 at a concrete trace: cancelling before a delayed
success outcome suppresses delivery entirely. -/
theorem cancellable_wrapper_witness :
    ([WrapEvent.cancel] : List (WrapEvent Nat Nat)).any WrapEvent.isSettle = false
    ∧ cancellableDeliveries
        (([WrapEvent.cancel] : List (WrapEvent Nat Nat))
          ++ WrapEvent.settle (PromiseOutcome.success 0) :: []) = [] :=
  ⟨rfl,
   (cancellable_wrapper_suppresses_after_cancel [WrapEvent.cancel] []
      (PromiseOutcome.success 0) rfl).1 (List.mem_cons_self _ _)⟩

/-! ## Change notifier

Modelled from the spec: the Change Notifier (the `onChange`-style
subscription machinery behind `onProgressChange` and friends) is not
included under `src/` (only callers such as `ProgressReport` are).  Per the
spec, a subscription is `Active` until its `unsubscribe()` transitions it to
the terminal `Cancelled` state; cancellation is immediate and idempotent;
signals are forwarded in arrival order to every active subscription, and
subscriptions on the same interface are independent.  We model the notifier
as a fold over a trace of subscribe/unsubscribe/signal events, keeping the
list of active subscription ids and collecting every (subscriber, signal)
delivery in order. -/

/-- Modelled from the spec: one event seen by the change notifier. -/
inductive NotifierEvent (σ : Type) where
  | subscribe (id : Nat)
  | unsubscribe (id : Nat)
  | signal (s : σ)
deriving Repr, DecidableEq

/-- Modelled from the spec: process the trace with the given active
subscription ids, collecting each delivery `(subscriber id, signal)` in
order; a signal is delivered to every active subscription, and
`unsubscribe` removes the subscription from the active set. -/
def runNotifier {σ : Type} : List (NotifierEvent σ) → List Nat → List (Nat × σ)
  | [], _ => []
  | .subscribe i :: rest, active =>
    runNotifier rest (if i ∈ active then active else active ++ [i])
  | .unsubscribe i :: rest, active => runNotifier rest (active.erase i)
  | .signal s :: rest, active => active.map (fun i => (i, s)) ++ runNotifier rest active

/-- The active subscription ids after processing the trace. -/
def notifierActive {σ : Type} : List (NotifierEvent σ) → List Nat → List Nat
  | [], active => active
  | .subscribe i :: rest, active =>
    notifierActive rest (if i ∈ active then active else active ++ [i])
  | .unsubscribe i :: rest, active => notifierActive rest (active.erase i)
  | .signal _ :: rest, active => notifierActive rest active

/-- The signals delivered to subscriber `i`, in delivery order. -/
def deliveredTo {σ : Type} (i : Nat) (ds : List (Nat × σ)) : List σ :=
  (ds.filter (fun p => p.1 == i)).map Prod.snd

/-- Whether the trace subscribes id `i` (would create a fresh subscription
with the same id). -/
def hasSubscribe {σ : Type} (i : Nat) : List (NotifierEvent σ) → Bool
  | [] => false
  | .subscribe j :: rest => j == i || hasSubscribe i rest
  | _ :: rest => hasSubscribe i rest

lemma deliveredTo_append {σ : Type} (i : Nat) (a b : List (Nat × σ)) :
    deliveredTo i (a ++ b) = deliveredTo i a ++ deliveredTo i b := by
  simp [deliveredTo]

lemma runNotifier_append {σ : Type} (t1 t2 : List (NotifierEvent σ)) :
    ∀ active : List Nat,
      runNotifier (t1 ++ t2) active
        = runNotifier t1 active ++ runNotifier t2 (notifierActive t1 active) := by
  induction t1 with
  | nil => intro active; simp [runNotifier, notifierActive]
  | cons e rest ih =>
    intro active
    cases e with
    | subscribe i =>
      simp only [List.cons_append, runNotifier, notifierActive]
      exact ih _
    | unsubscribe i =>
      simp only [List.cons_append, runNotifier, notifierActive]
      exact ih _
    | signal s =>
      simp only [List.cons_append, runNotifier, notifierActive, List.append_assoc,
        List.append_eq]
      rw [ih]

lemma notifierActive_nodup {σ : Type} (t : List (NotifierEvent σ)) :
    ∀ active : List Nat, active.Nodup → (notifierActive t active).Nodup := by
  induction t with
  | nil => intro active h; exact h
  | cons e rest ih =>
    intro active h
    cases e with
    | subscribe i =>
      simp only [notifierActive]
      apply ih
      by_cases hi : i ∈ active
      · simpa [hi]
      · simp only [hi, if_false]
        exact List.Nodup.append h (List.nodup_singleton i)
          (by simpa [List.disjoint_singleton] using hi)
    | unsubscribe i =>
      simp only [notifierActive]
      exact ih _ (h.erase i)
    | signal s =>
      simp only [notifierActive]
      exact ih _ h

lemma deliveredTo_map_signal_not_mem {σ : Type} (i : Nat) (s : σ) (active : List Nat)
    (h : i ∉ active) :
    deliveredTo i (active.map (fun k => (k, s))) = [] := by
  unfold deliveredTo
  rw [List.filter_eq_nil_iff.mpr, List.map_nil]
  intro p hp
  obtain ⟨k, hk, rfl⟩ := List.mem_map.mp hp
  simp only [beq_iff_eq]
  exact fun he => h (he ▸ hk)

lemma deliveredTo_map_signal {σ : Type} (i : Nat) (s : σ) :
    ∀ active : List Nat, active.Nodup →
      deliveredTo i (active.map (fun k => (k, s))) = if i ∈ active then [s] else [] := by
  intro active
  induction active with
  | nil => intro _; rfl
  | cons k rest ih =>
    intro hnd
    obtain ⟨hk, hr⟩ := List.nodup_cons.mp hnd
    by_cases hik : k = i
    · subst hik
      rw [if_pos (List.mem_cons_self k rest)]
      simp only [deliveredTo, List.map_cons, List.filter_cons, beq_self_eq_true, if_true]
      have : deliveredTo k (rest.map (fun j => (j, s))) = [] :=
        deliveredTo_map_signal_not_mem k s rest hk
      simp only [deliveredTo] at this
      simp [this]
    · have hcons : deliveredTo i ((k :: rest).map (fun j => (j, s)))
           = deliveredTo i (rest.map (fun j => (j, s))) := by
        simp [deliveredTo, List.filter_cons, hik]
      have hmem : (i ∈ k :: rest) ↔ (i ∈ rest) := by
        constructor
        · intro h
          rcases List.mem_cons.mp h with h' | h'
          · exact absurd h'.symm hik
          · exact h'
        · exact List.mem_cons_of_mem k
      rw [hcons, ih hr]
      simp only [hmem]

lemma deliveredTo_runNotifier_nil {σ : Type} (i : Nat) (t : List (NotifierEvent σ)) :
    ∀ active : List Nat, i ∉ active → hasSubscribe i t = false →
      deliveredTo i (runNotifier t active) = [] := by
  induction t with
  | nil => intro active _ _; rfl
  | cons e rest ih =>
    intro active hi hs
    cases e with
    | subscribe j =>
      simp only [hasSubscribe, Bool.or_eq_false_iff] at hs
      simp only [runNotifier]
      apply ih _ ?_ hs.2
      by_cases hja : j ∈ active
      · simpa [hja] using hi
      · simp only [hja, if_false, List.mem_append, List.mem_singleton]
        rintro (h | h)
        · exact hi h
        · exact (beq_eq_false_iff_ne.mp hs.1) h.symm
    | unsubscribe j =>
      simp only [hasSubscribe] at hs
      simp only [runNotifier]
      exact ih _ (fun hm => hi (List.mem_of_mem_erase hm)) hs
    | signal s =>
      simp only [hasSubscribe] at hs
      simp only [runNotifier, deliveredTo_append]
      rw [deliveredTo_map_signal_not_mem i s active hi, ih _ hi hs, List.append_nil]

lemma nodup_subscribe_step (k : Nat) (l : List Nat) (h : l.Nodup) :
    (if k ∈ l then l else l ++ [k]).Nodup := by
  by_cases hk : k ∈ l
  · simpa [hk]
  · simp only [hk, if_false]
    exact List.Nodup.append h (List.nodup_singleton k)
      (by simpa [List.disjoint_singleton] using hk)

lemma mem_subscribe_step (j k : Nat) (l : List Nat) :
    j ∈ (if k ∈ l then l else l ++ [k]) ↔ (j ∈ l ∨ j = k) := by
  by_cases hk : k ∈ l
  · simp only [hk, if_true]
    constructor
    · exact Or.inl
    · rintro (h | rfl)
      · exact h
      · exact hk
  · simp [hk, List.mem_append]

lemma deliveredTo_runNotifier_congr {σ : Type} (j : Nat) (t : List (NotifierEvent σ)) :
    ∀ a b : List Nat, a.Nodup → b.Nodup → (j ∈ a ↔ j ∈ b) →
      deliveredTo j (runNotifier t a) = deliveredTo j (runNotifier t b) := by
  induction t with
  | nil => intro a b _ _ _; rfl
  | cons e rest ih =>
    intro a b hna hnb hab
    cases e with
    | subscribe k =>
      simp only [runNotifier]
      apply ih _ _ (nodup_subscribe_step k a hna) (nodup_subscribe_step k b hnb)
      rw [mem_subscribe_step, mem_subscribe_step]
      exact or_congr hab Iff.rfl
    | unsubscribe k =>
      simp only [runNotifier]
      apply ih _ _ (hna.erase k) (hnb.erase k)
      rw [List.Nodup.mem_erase_iff hna, List.Nodup.mem_erase_iff hnb]
      exact and_congr Iff.rfl hab
    | signal s =>
      simp only [runNotifier, deliveredTo_append]
      rw [deliveredTo_map_signal j s a hna, deliveredTo_map_signal j s b hnb,
        ih a b hna hnb hab]
      simp only [hab]

/-- C8: after `unsubscribe()` the subscription's callback is never invoked
again — all its deliveries happen before the unsubscribe, even for a signal
in flight at cancellation time; a second `unsubscribe()` has no effect at
all on the notifier's behaviour; and cancelling one subscription does not
change the deliveries of any other subscription. -/
theorem notifier_unsubscribe_stops_deliveries {σ : Type}
    (t1 t2 : List (NotifierEvent σ)) (i : Nat) (active : List Nat)
    (hnd : active.Nodup) (hns : hasSubscribe i t2 = false) :
    (deliveredTo i (runNotifier (t1 ++ NotifierEvent.unsubscribe i :: t2) active)
       = deliveredTo i (runNotifier t1 active))
    ∧ (runNotifier (t1 ++ NotifierEvent.unsubscribe i :: NotifierEvent.unsubscribe i :: t2) active
       = runNotifier (t1 ++ NotifierEvent.unsubscribe i :: t2) active)
    ∧ (∀ j : Nat, j ≠ i →
        deliveredTo j (runNotifier (t1 ++ NotifierEvent.unsubscribe i :: t2) active)
          = deliveredTo j (runNotifier (t1 ++ t2) active)) := by
  have hA : (notifierActive t1 active).Nodup := notifierActive_nodup t1 active hnd
  have hstep : runNotifier (NotifierEvent.unsubscribe i :: t2) (notifierActive t1 active)
      = runNotifier t2 ((notifierActive t1 active).erase i) := by
    simp only [runNotifier]
  have hnotmem : i ∉ (notifierActive t1 active).erase i := hA.not_mem_erase
  refine ⟨?_, ?_, ?_⟩
  · rw [runNotifier_append, deliveredTo_append, hstep,
      deliveredTo_runNotifier_nil i t2 _ hnotmem hns, List.append_nil]
  · rw [runNotifier_append, runNotifier_append]
    congr 1
    have h2 : runNotifier (NotifierEvent.unsubscribe i :: NotifierEvent.unsubscribe i :: t2)
        (notifierActive t1 active)
        = runNotifier t2 (((notifierActive t1 active).erase i).erase i) := by
      simp only [runNotifier]
    rw [h2, hstep, List.erase_of_not_mem hnotmem]
  · intro j hj
    rw [runNotifier_append, runNotifier_append, deliveredTo_append, deliveredTo_append, hstep]
    congr 1
    apply deliveredTo_runNotifier_congr j t2 _ _ (hA.erase i) hA
    rw [List.Nodup.mem_erase_iff hA]
    simp [hj]

/-- Witness for C8 at a concrete trace: subscriptions 1 and 2 each receive
the first signal; after subscription 1 unsubscribes, a later signal reaches
only subscription 2. -/
theorem notifier_unsubscribe_witness :
    ([] : List Nat).Nodup
    ∧ hasSubscribe 1 [NotifierEvent.signal (8 : Nat)] = false
    ∧ deliveredTo 1 (runNotifier
        (([NotifierEvent.subscribe 1, NotifierEvent.subscribe 2, NotifierEvent.signal 7]
            : List (NotifierEvent Nat))
          ++ NotifierEvent.unsubscribe 1 :: [NotifierEvent.signal 8]) [])
        = deliveredTo 1 (runNotifier
            ([NotifierEvent.subscribe 1, NotifierEvent.subscribe 2, NotifierEvent.signal 7]
              : List (NotifierEvent Nat)) [])
    ∧ deliveredTo 2 (runNotifier
        (([NotifierEvent.subscribe 1, NotifierEvent.subscribe 2, NotifierEvent.signal 7]
            : List (NotifierEvent Nat))
          ++ NotifierEvent.unsubscribe 1 :: [NotifierEvent.signal 8]) [])
        = deliveredTo 2 (runNotifier
            (([NotifierEvent.subscribe 1, NotifierEvent.subscribe 2, NotifierEvent.signal 7]
                : List (NotifierEvent Nat))
              ++ [NotifierEvent.signal 8]) []) :=
  ⟨List.nodup_nil, rfl,
   (notifier_unsubscribe_stops_deliveries
      [NotifierEvent.subscribe 1, NotifierEvent.subscribe 2, NotifierEvent.signal 7]
      [NotifierEvent.signal 8] 1 [] List.nodup_nil rfl).1,
   (notifier_unsubscribe_stops_deliveries
      [NotifierEvent.subscribe 1, NotifierEvent.subscribe 2, NotifierEvent.signal 7]
      [NotifierEvent.signal 8] 1 [] List.nodup_nil rfl).2.2 2 (by decide)⟩

/-! ## `ValidationErrors` component (src/web/src/components/core/ValidationErrors.jsx)

The component's render logic: with no errors (null, undefined or empty
list) it renders nothing; with exactly one error it renders that error's
message; otherwise it renders only the pluralized count message produced by
`sprintf(n_("%d error found", "%d errors found", errors.length),
errors.length)`. -/

/-- A validation error as consumed by the component (only its `message`
field is rendered). -/
structure ValidationError where
  message : String
deriving Repr, DecidableEq

/-- Modelled from the spec: `sprintf` from the external sprintf-js library,
restricted to a format string with a single `%d` directive, substitutes the
number. -/
def sprintfD (fmt : String) (n : Nat) : String :=
  fmt.replace "%d" (toString n)

/-- Modelled from the spec: `n_` from the i18n module (not included under
`src/`) — gettext plural selection, which for English picks the singular
form exactly when the count is 1. -/
def pluralize (singular plural : String) (n : Nat) : String :=
  if n == 1 then singular else plural

/-- What the `ValidationErrors` component renders. -/
inductive VERender where
  | nothing
  | singleMessage (message : String)
  | countMessage (text : String)
deriving Repr, DecidableEq

/-- The render logic of the `ValidationErrors` component: `!errors` or an
empty list renders nothing; one error renders `errors[0].message`; more
errors render only the count message. -/
def ValidationErrors : Option (List ValidationError) → VERender
  | none => .nothing
  | some [] => .nothing
  | some [e] => .singleMessage e.message
  | some es =>
    .countMessage (sprintfD (pluralize "%d error found" "%d errors found" es.length) es.length)

/-- C9: for the errors list passed to `ValidationErrors` — null/undefined or
empty renders nothing; exactly one element renders that element's message
text; two or more elements render only the count message
`"%d errors found"` instantiated with the list length, not the individual
messages. -/
theorem ValidationErrors_render_cases (errors : Option (List ValidationError)) :
    ((errors = none ∨ errors = some []) → ValidationErrors errors = .nothing)
    ∧ (∀ e, errors = some [e] → ValidationErrors errors = .singleMessage e.message)
    ∧ (∀ es, errors = some es → 2 ≤ es.length →
        ValidationErrors errors = .countMessage (sprintfD "%d errors found" es.length)) := by
  refine ⟨?_, ?_, ?_⟩
  · rintro (rfl | rfl) <;> rfl
  · rintro e rfl; rfl
  · rintro es rfl h2
    cases es with
    | nil => exact absurd h2 (by decide)
    | cons e1 tl =>
      cases tl with
      | nil => exact absurd h2 (by simp)
      | cons e2 rest =>
        simp only [ValidationErrors, pluralize, List.length_cons]
        rw [if_neg (by simp)]

/-- Witness for C9 at concrete inputs: `none` renders nothing, one error
renders its message, two errors render the count message for 2. -/
theorem ValidationErrors_render_witness :
    ValidationErrors none = .nothing
    ∧ ValidationErrors (some [ValidationError.mk "boom"]) = .singleMessage "boom"
    ∧ (2 ≤ ([ValidationError.mk "a", ValidationError.mk "b"] : List ValidationError).length
       ∧ ValidationErrors (some [ValidationError.mk "a", ValidationError.mk "b"])
           = .countMessage (sprintfD "%d errors found" 2)) :=
  ⟨(ValidationErrors_render_cases none).1 (Or.inl rfl),
   (ValidationErrors_render_cases (some [ValidationError.mk "boom"])).2.1
     (ValidationError.mk "boom") rfl,
   by decide,
   (ValidationErrors_render_cases
      (some [ValidationError.mk "a", ValidationError.mk "b"])).2.2 _ rfl (by decide)⟩

/-! ## `OverviewSection` reducer (src/web/src/components/storage/OverviewSection.jsx)

The reducer over `{ busy, proposal, errors }` state:
`UPDATE_STATUS` sets `busy` to whether the payload status equals `BUSY`;
`UPDATE_PROPOSAL` spreads the payload proposal over the previous one
(`state.proposal || {}`); `UPDATE_ERRORS` replaces `errors`; any other
action returns the state unchanged. -/

/-- Modelled from the spec: the `BUSY` status constant imported from
`@client/status` (not included under `src/`); only equality with it is
observable here. -/
def BUSY : Nat := 1

/-- The `OverviewSection` reducer state `{ busy, proposal, errors }`; the
proposal is an optional partial object, modelled as an association list of
field names to values. -/
structure OvState (π ε : Type) where
  busy : Bool
  proposal : Option (List (String × π))
  errors : List ε
deriving Repr, DecidableEq

/-- A dispatched action: the three recognized `action.type` values with
their payloads, or any other action type. -/
inductive OvAction (π ε : Type) where
  | updateStatus (status : Nat)
  | updateProposal (proposal : List (String × π))
  | updateErrors (errors : List ε)
  | other (type : String)
deriving Repr, DecidableEq

/-- First value stored under a key in a JS-object association list. -/
def lookupProp {π : Type} : List (String × π) → String → Option π
  | [], _ => none
  | (k, v) :: rest, key => if k == key then some v else lookupProp rest key

/-- JS object spread `{ ...a, ...b }`: every key of `a` in order, with `b`'s
value where `b` also holds the key, followed by the keys of `b` absent from
`a`, in order. -/
def spreadMerge {π : Type} (a b : List (String × π)) : List (String × π) :=
  a.map (fun kv =>
    match lookupProp b kv.1 with
    | some v => (kv.1, v)
    | none => kv)
  ++ b.filter (fun kv => (lookupProp a kv.1).isNone)

/-- The `OverviewSection` reducer, translated case by case from the source
`switch` statement. -/
def reducer {π ε : Type} (state : OvState π ε) (action : OvAction π ε) : OvState π ε :=
  match action with
  | .updateStatus status => { state with busy := status == BUSY }
  | .updateProposal proposal =>
    { state with proposal := some (spreadMerge (state.proposal.getD []) proposal) }
  | .updateErrors errors => { state with errors := errors }
  | .other _ => state

/-- C10: the reducer keeps every unlisted field unchanged — `UPDATE_STATUS`
changes only `busy` (to whether the status equals `BUSY`); `UPDATE_PROPOSAL`
changes only `proposal` (spreading the payload over the previous proposal,
an absent previous proposal counting as empty); `UPDATE_ERRORS` changes only
`errors`; any other action returns the state unchanged. -/
theorem reducer_frame {π ε : Type} (s : OvState π ε) :
    (∀ st : Nat, (reducer s (.updateStatus st)).busy = (st == BUSY)
      ∧ (reducer s (.updateStatus st)).proposal = s.proposal
      ∧ (reducer s (.updateStatus st)).errors = s.errors)
    ∧ (∀ p, (reducer s (.updateProposal p)).proposal
          = some (spreadMerge (s.proposal.getD []) p)
      ∧ (reducer s (.updateProposal p)).busy = s.busy
      ∧ (reducer s (.updateProposal p)).errors = s.errors)
    ∧ (∀ e, (reducer s (.updateErrors e)).errors = e
      ∧ (reducer s (.updateErrors e)).busy = s.busy
      ∧ (reducer s (.updateErrors e)).proposal = s.proposal)
    ∧ (∀ t, reducer s (.other t) = s) :=
  ⟨fun _ => ⟨rfl, rfl, rfl⟩, fun _ => ⟨rfl, rfl, rfl⟩, fun _ => ⟨rfl, rfl, rfl⟩, fun _ => rfl⟩

end Agama
